import Mathlib

/-!
Shallow embedding, over the real numbers, of the numerical cores of the
GANs repository notebooks:

* the DDPM noise schedule, `perturb_input`, `denoise_add_noise` and
  `sample_ddpm` of `labs/diffusion-models/L2_training/L2_Training.ipynb`;
* `get_gradient`, `gradient_penalty` and `frechet_distance` of
  `labs/C2W1/C2W1_Assignment copy.ipynb`;
* the volume-rendering portion of `render_rays` of
  `labs/C2W2/C2W2_(Optional_Notebook)_NeRF.ipynb`;
* the checkpoint-loading cells.

Tensors are embedded index-wise as functions into `ℝ`; the framework
primitives (`torch.linspace`, `torch.cumsum`, `torch.cumprod`,
`torch.roll`, `torch.autograd.grad`, `torch.load`) are embedded by their
mathematical semantics.
-/

noncomputable section

/-- `torch.linspace(s, e, n)[i] = s + (e - s) * i / (n - 1)`:
`n` evenly spaced points from `s` to `e`. -/
def linspace (s e : ℝ) (n i : ℕ) : ℝ :=
  s + (e - s) * i / ((n - 1 : ℕ) : ℝ)

namespace NoiseSchedule

/-- `b_t = (beta2 - beta1) * torch.linspace(0, 1, timesteps + 1) + beta1`,
the linear beta schedule, parameterised as in
`compute_noise_schedule_and_distribution`. -/
def b_t (beta1 beta2 : ℝ) (T i : ℕ) : ℝ :=
  (beta2 - beta1) * linspace 0 1 (T + 1) i + beta1

/-- `a_t = 1 - b_t`. -/
def a_t (beta1 beta2 : ℝ) (T i : ℕ) : ℝ :=
  1 - b_t beta1 beta2 T i

/-- `torch.cumsum(a_t.log(), dim=0).exp()`, before the in-place override
of index 0. -/
def ab_raw (beta1 beta2 : ℝ) (T i : ℕ) : ℝ :=
  Real.exp (∑ j ∈ Finset.range (i + 1), Real.log (a_t beta1 beta2 T j))

/-- `ab_t = torch.cumsum(a_t.log(), dim=0).exp(); ab_t[0] = 1`: the
cumulative-alpha table with its index-0 override. -/
def ab_t (beta1 beta2 : ℝ) (T i : ℕ) : ℝ :=
  if i = 0 then 1 else ab_raw beta1 beta2 T i

/-- `ab_t_alternative = torch.cumprod(a_t, dim=0)`, the alternative
computation in `compute_noise_schedule_and_distribution` (no override). -/
def ab_t_alternative (beta1 beta2 : ℝ) (T i : ℕ) : ℝ :=
  ∏ j ∈ Finset.range (i + 1), a_t beta1 beta2 T j

end NoiseSchedule

/-- Hyperparameter cell: `timesteps = 500`. -/
def timesteps : ℕ := 500

/-- Hyperparameter cell: `beta1 = 1e-4`. -/
def beta1 : ℝ := 1 / 10000

/-- Hyperparameter cell: `beta2 = 0.02`. -/
def beta2 : ℝ := 1 / 50

/-- The global `b_t` bound by the schedule-construction cell. -/
def b_t (i : ℕ) : ℝ := NoiseSchedule.b_t beta1 beta2 timesteps i

/-- The global `a_t` bound by the schedule-construction cell. -/
def a_t (i : ℕ) : ℝ := NoiseSchedule.a_t beta1 beta2 timesteps i

/-- The global `ab_t` bound by the schedule-construction cell. -/
def ab_t (i : ℕ) : ℝ := NoiseSchedule.ab_t beta1 beta2 timesteps i

/-- `perturb_input(x, t, noise) = ab_t.sqrt()[t] * x + (1 - ab_t[t]).sqrt() * noise`,
element-wise over the image, with `ι` the (flattened) index set of the
image tensor. -/
def perturb_input {ι : Type} (x : ι → ℝ) (t : ℕ) (noise : ι → ℝ) : ι → ℝ :=
  fun k => Real.sqrt (ab_t t) * x k + Real.sqrt (1 - ab_t t) * noise k

/-- The `b_t` entries in closed form: unfolding `linspace` gives
`beta1 + (beta2 - beta1) * i / T`. -/
theorem b_t_formula (β1 β2 : ℝ) (T i : ℕ) :
    NoiseSchedule.b_t β1 β2 T i = β1 + (β2 - β1) * i / T := by
  unfold NoiseSchedule.b_t linspace
  simp only [Nat.add_sub_cancel]
  ring

/-- Claim C7: the precomputed beta schedule is linear in the timestep
index: `b_t[i] = beta1 + (beta2 - beta1) * i / timesteps`, so it rises
monotonically from `beta1` at index 0 to `beta2` at index `timesteps`. -/
theorem b_t_linear (β1 β2 : ℝ) (T : ℕ) (hT : 0 < T) (hb : β1 ≤ β2) :
    (∀ i : ℕ, NoiseSchedule.b_t β1 β2 T i = β1 + (β2 - β1) * i / T) ∧
    NoiseSchedule.b_t β1 β2 T 0 = β1 ∧
    NoiseSchedule.b_t β1 β2 T T = β2 ∧
    (∀ i j : ℕ, i ≤ j → NoiseSchedule.b_t β1 β2 T i ≤ NoiseSchedule.b_t β1 β2 T j) := by
  have hT0 : ((T : ℝ)) ≠ 0 := Nat.cast_ne_zero.mpr hT.ne'
  refine ⟨b_t_formula β1 β2 T, ?_, ?_, ?_⟩
  · rw [b_t_formula β1 β2 T 0]; simp
  · rw [b_t_formula β1 β2 T T, mul_div_assoc, div_self hT0]; ring
  · intro i j hij
    rw [b_t_formula β1 β2 T i, b_t_formula β1 β2 T j]
    have hb' : (0 : ℝ) ≤ β2 - β1 := by linarith
    have hTpos : (0 : ℝ) < (T : ℝ) := by positivity
    have hij' : (i : ℝ) ≤ (j : ℝ) := by exact_mod_cast hij
    have h1 : (β2 - β1) * i ≤ (β2 - β1) * j := mul_le_mul_of_nonneg_left hij' hb'
    have h2 : (β2 - β1) * i / T ≤ (β2 - β1) * j / T := by
      exact div_le_div_of_nonneg_right h1 hTpos.le
    linarith

/-- Witness for C7 at the notebook's hyperparameters. -/
theorem b_t_linear_witness :
    NoiseSchedule.b_t (1 / 10000) (1 / 50) 500 0 = 1 / 10000 ∧
    NoiseSchedule.b_t (1 / 10000) (1 / 50) 500 500 = 1 / 50 :=
  ⟨(b_t_linear (1 / 10000) (1 / 50) 500 (by norm_num) (by norm_num)).2.1,
   (b_t_linear (1 / 10000) (1 / 50) 500 (by norm_num) (by norm_num)).2.2.1⟩

/-- Claim C2: `perturb_input(x, t, noise)` returns
`sqrt(ab_t[t]) * x + sqrt(1 - ab_t[t]) * noise` at every image index. -/
theorem perturb_input_eq {ι : Type} (x noise : ι → ℝ) (t : ℕ) :
    perturb_input x t noise =
      fun k => Real.sqrt (ab_t t) * x k + Real.sqrt (1 - ab_t t) * noise k :=
  rfl

/-- In `ab_raw`, the exponential of the cumulative sum of logs is the
cumulative product, provided every `a_t` entry up to `i` is positive. -/
theorem ab_raw_eq_prod (β1 β2 : ℝ) (T i : ℕ)
    (hpos : ∀ j, j ≤ i → 0 < NoiseSchedule.a_t β1 β2 T j) :
    NoiseSchedule.ab_raw β1 β2 T i = NoiseSchedule.ab_t_alternative β1 β2 T i := by
  unfold NoiseSchedule.ab_raw NoiseSchedule.ab_t_alternative
  rw [Real.exp_sum]
  refine Finset.prod_congr rfl ?_
  intro j hj
  exact Real.exp_log (hpos j (Nat.lt_succ_iff.mp (Finset.mem_range.mp hj)))

/-- For `0 < β1 ≤ β2 < 1` and an index within the table, every `a_t`
entry is positive. -/
theorem a_t_pos (β1 β2 : ℝ) (T j : ℕ) (_h1 : 0 < β1) (h2 : β1 ≤ β2)
    (h3 : β2 < 1) (hT : 0 < T) (hj : j ≤ T) :
    0 < NoiseSchedule.a_t β1 β2 T j := by
  have hTpos : (0 : ℝ) < (T : ℝ) := by positivity
  have hj' : (j : ℝ) ≤ (T : ℝ) := by exact_mod_cast hj
  have h4 : (β2 - β1) * j / T ≤ (β2 - β1) * T / T :=
    div_le_div_of_nonneg_right
      (mul_le_mul_of_nonneg_left hj' (by linarith)) hTpos.le
  have h5 : (β2 - β1) * T / T = β2 - β1 := by
    rw [mul_div_assoc, div_self hTpos.ne']; ring
  unfold NoiseSchedule.a_t
  rw [b_t_formula β1 β2 T j]
  linarith

/-- Counterexample for C9: at the analysis cell's default parameters
(`beta1 = 1e-4`, `beta2 = 2e-2`, `timesteps = 1000`) the overridden table
and `cumprod` disagree at index 0: the override stores 1 while `cumprod`
stores `1 - beta1`. -/
theorem ab_t_alternative_ne_at_zero :
    NoiseSchedule.ab_t (1 / 10000) (1 / 50) 1000 0 ≠
      NoiseSchedule.ab_t_alternative (1 / 10000) (1 / 50) 1000 0 := by
  unfold NoiseSchedule.ab_t NoiseSchedule.ab_t_alternative NoiseSchedule.a_t
  unfold NoiseSchedule.b_t linspace
  norm_num

/-- Claim C9 (amended): for every `0 < beta1 <= beta2 < 1` the table
`exp(cumsum(log(a_t)))` with the index-0 override agrees with
`cumprod(a_t)` at every index `i` with `1 <= i <= timesteps`; at index 0
they differ (override 1 versus `1 - beta1`). -/
theorem ab_t_eq_alternative (β1 β2 : ℝ) (T i : ℕ) (h1 : 0 < β1)
    (h2 : β1 ≤ β2) (h3 : β2 < 1) (hi : 1 ≤ i) (hiT : i ≤ T) :
    NoiseSchedule.ab_t β1 β2 T i = NoiseSchedule.ab_t_alternative β1 β2 T i := by
  have hT : 0 < T := lt_of_lt_of_le hi hiT
  have hi0 : i ≠ 0 := Nat.one_le_iff_ne_zero.mp hi
  unfold NoiseSchedule.ab_t
  rw [if_neg hi0]
  exact ab_raw_eq_prod β1 β2 T i fun j hj =>
    a_t_pos β1 β2 T j h1 h2 h3 hT (le_trans hj hiT)

/-- Witness for the amended C9 at concrete parameters. -/
theorem ab_t_eq_alternative_witness :
    NoiseSchedule.ab_t (1 / 10000) (1 / 50) 1000 1 =
      NoiseSchedule.ab_t_alternative (1 / 10000) (1 / 50) 1000 1 :=
  ab_t_eq_alternative (1 / 10000) (1 / 50) 1000 1 (by norm_num) (by norm_num)
    (by norm_num) (le_refl 1) (by norm_num)

/-- The schedule globals as rebound by the analysis cell
`b_t, a_t, ab_t = compute_noise_schedule_and_distribution()`, which runs
with its default arguments `beta1=1e-4, beta2=2e-2, timesteps=1000`. -/
def b_t_after_analysis (i : ℕ) : ℝ := NoiseSchedule.b_t (1 / 10000) (1 / 50) 1000 i

/-- Claim C5 is violated by the code: the analysis cell rebinds the
global schedule arrays to a 1000-step schedule, so after it runs the
global `b_t` no longer equals its initialization value — at index 500 the
initialization stored `beta2 = 0.02` but the rebound array stores
`0.010050`. -/
theorem analysis_cell_rebinds_schedule : b_t_after_analysis 500 ≠ b_t 500 := by
  unfold b_t_after_analysis b_t timesteps beta1 beta2
  unfold NoiseSchedule.b_t linspace
  norm_num

/-- `denoise_add_noise(x, t, pred_noise, z)`:
`mean = (x - pred_noise * ((1 - a_t[t]) / (1 - ab_t[t]).sqrt())) / a_t[t].sqrt()`
plus re-injected noise `b_t.sqrt()[t] * z`, per pixel. -/
def denoise_add_noise (x : ℝ) (t : ℕ) (pred_noise z : ℝ) : ℝ :=
  (x - pred_noise * ((1 - a_t t) / Real.sqrt (1 - ab_t t))) / Real.sqrt (a_t t) +
    Real.sqrt (b_t t) * z

/-- One iteration of the `sample_ddpm` loop at step `i`, per pixel.
`nn_model` is the trained network (pixel value and normalised timestep in,
predicted noise out) and `zdraw i` is the Gaussian draw
`torch.randn_like(samples)` made at step `i`; the code uses it only when
`i > 1` (`z = torch.randn_like(samples) if i > 1 else 0`). -/
def sample_ddpm_step (nn_model : ℝ → ℝ → ℝ) (zdraw : ℕ → ℝ) (i : ℕ)
    (samples : ℝ) : ℝ :=
  let z : ℝ := if 1 < i then zdraw i else 0
  let eps := nn_model samples ((i : ℝ) / (timesteps : ℝ))
  denoise_add_noise samples i eps z

/-- The `for i in range(timesteps, 0, -1)` loop of `sample_ddpm`:
`sample_ddpm_loop nn zdraw i s` runs steps `i, i-1, ..., 1` from state `s`. -/
def sample_ddpm_loop (nn_model : ℝ → ℝ → ℝ) (zdraw : ℕ → ℝ) : ℕ → ℝ → ℝ
  | 0, s => s
  | i + 1, s => sample_ddpm_loop nn_model zdraw i (sample_ddpm_step nn_model zdraw (i + 1) s)

/-- `sample_ddpm`: start from `x_T` and run the reverse loop from
`timesteps` down to 1. -/
def sample_ddpm (nn_model : ℝ → ℝ → ℝ) (zdraw : ℕ → ℝ) (x_T : ℝ) : ℝ :=
  sample_ddpm_loop nn_model zdraw timesteps x_T

/-- Counterexample for C3: at step `i = 1` the code sets `z = 0` instead
of using the Gaussian draw, so the update differs from
`denoise_add_noise` applied with the drawn noise (here the draw is 1):
the left side re-injects no noise, the right side adds `sqrt(b_t[1])`. -/
theorem sample_ddpm_step_ignores_draw_at_one :
    sample_ddpm_step (fun _ _ => 0) (fun _ => 1) 1 0 ≠ denoise_add_noise 0 1 0 1 := by
  have hb : (0 : ℝ) < b_t 1 := by
    unfold b_t timesteps beta1 beta2 NoiseSchedule.b_t linspace
    norm_num
  have hs : 0 < Real.sqrt (b_t 1) := Real.sqrt_pos.mpr hb
  unfold sample_ddpm_step denoise_add_noise
  norm_num
  exact hs.ne

/-- Claim C3 (amended): at every reverse step `i` with `2 <= i`, the
sampler update subtracts the predicted noise scaled by
`(1 - a_t[i]) / sqrt(1 - ab_t[i])`, divides by `sqrt(a_t[i])` and
re-injects `sqrt(b_t[i]) * z` with `z` the Gaussian draw of that step;
at the final step `i = 1` the same update runs with `z = 0`, so no noise
is re-injected there. Each loop iteration applies exactly this step. -/
theorem sample_ddpm_step_eq (nn_model : ℝ → ℝ → ℝ) (zdraw : ℕ → ℝ) (i : ℕ)
    (s : ℝ) (hi : 2 ≤ i) :
    sample_ddpm_step nn_model zdraw i s =
      (s - nn_model s ((i : ℝ) / (timesteps : ℝ)) *
          ((1 - a_t i) / Real.sqrt (1 - ab_t i))) / Real.sqrt (a_t i) +
        Real.sqrt (b_t i) * zdraw i ∧
    sample_ddpm_step nn_model zdraw 1 s =
      (s - nn_model s ((1 : ℝ) / (timesteps : ℝ)) *
          ((1 - a_t 1) / Real.sqrt (1 - ab_t 1))) / Real.sqrt (a_t 1) +
        Real.sqrt (b_t 1) * 0 ∧
    (∀ j s₀, sample_ddpm_loop nn_model zdraw (j + 1) s₀ =
      sample_ddpm_loop nn_model zdraw j (sample_ddpm_step nn_model zdraw (j + 1) s₀)) := by
  refine ⟨?_, ?_, fun j s₀ => rfl⟩
  · unfold sample_ddpm_step denoise_add_noise
    rw [if_pos (by omega)]
  · unfold sample_ddpm_step denoise_add_noise
    norm_num

/-- Witness for the amended C3 at step 2 with a concrete model and draw. -/
theorem sample_ddpm_step_eq_witness :
    sample_ddpm_step (fun _ _ => 0) (fun _ => 1) 2 0 =
      (0 - 0 * ((1 - a_t 2) / Real.sqrt (1 - ab_t 2))) / Real.sqrt (a_t 2) +
        Real.sqrt (b_t 2) * 1 :=
  (sample_ddpm_step_eq (fun _ _ => 0) (fun _ => 1) 2 0 (by norm_num)).1

/-- `torch.autograd.grad(outputs=f(x), inputs=x, grad_outputs=ones)`,
embedded as the exact gradient the autograd engine computes: the Fréchet
derivative of `f` at `x` applied to each coordinate direction. -/
def autograd_grad {ι : Type} [Fintype ι] [DecidableEq ι]
    (f : (ι → ℝ) → ℝ) (x : ι → ℝ) : ι → ℝ :=
  fun k => fderiv ℝ f x (Pi.single k 1)

/-- `get_gradient(crit, real, fake, epsilon)`: mix the batches as
`mixed_images = real * epsilon + fake * (1 - epsilon)`, score them with
the critic and return the gradient of the scores with respect to the
mixed images. The critic acts independently on each of the `B` batch
rows, so the gradient of the summed scores is the per-row gradient. -/
def get_gradient {B : ℕ} {ι : Type} [Fintype ι] [DecidableEq ι]
    (crit : (ι → ℝ) → ℝ) (real fake : Fin B → ι → ℝ)
    (epsilon : Fin B → ℝ) : Fin B → ι → ℝ :=
  let mixed_images := fun b k => real b k * epsilon b + fake b k * (1 - epsilon b)
  fun b => autograd_grad crit (mixed_images b)

/-- `gradient.norm(2, dim=1)` on one (flattened) row:
the 2-norm `(sum |v k| ^ 2) ^ (1/2)`. -/
def torch_norm2 {ι : Type} [Fintype ι] (v : ι → ℝ) : ℝ :=
  (∑ k, |v k| ^ 2) ^ ((1 : ℝ) / 2)

/-- `gradient_penalty(gradient)`: flatten each row, take the row-wise
2-norm, and return `((gradient_norm - 1) ** 2).mean()`. -/
def gradient_penalty {B : ℕ} {ι : Type} [Fintype ι]
    (gradient : Fin B → ι → ℝ) : ℝ :=
  (∑ b, (torch_norm2 (gradient b) - 1) ^ 2) / B

/-- The row-wise 2-norm is the square root of the sum of squares. -/
theorem torch_norm2_eq_sqrt {ι : Type} [Fintype ι] (v : ι → ℝ) :
    torch_norm2 v = Real.sqrt (∑ k, v k ^ 2) := by
  unfold torch_norm2
  rw [Real.sqrt_eq_rpow]
  congr 1
  exact Finset.sum_congr rfl fun k _ => sq_abs (v k)

/-- Claim C1: `get_gradient` returns the critic-score gradient taken at
the interpolate `real * epsilon + fake * (1 - epsilon)`, and
`gradient_penalty` of that gradient is the mean over the batch of the
squared deviation from 1 of each per-image gradient's L2 norm over the
flattened image. -/
theorem get_gradient_gradient_penalty_spec {B : ℕ} {ι : Type} [Fintype ι]
    [DecidableEq ι] (crit : (ι → ℝ) → ℝ) (real fake : Fin B → ι → ℝ)
    (epsilon : Fin B → ℝ) :
    (∀ b, get_gradient crit real fake epsilon b =
      autograd_grad crit (fun k => real b k * epsilon b + fake b k * (1 - epsilon b))) ∧
    gradient_penalty (get_gradient crit real fake epsilon) =
      (∑ b, (Real.sqrt (∑ k, get_gradient crit real fake epsilon b k ^ 2) - 1) ^ 2) / B := by
  constructor
  · intro b
    rfl
  · unfold gradient_penalty
    congr 1
    exact Finset.sum_congr rfl fun b _ => by rw [torch_norm2_eq_sqrt]

/-- `frechet_distance` as it stands in the notebook: the graded cell is
the unfilled stub whose body is `return None` between the
`START CODE HERE` markers. -/
def frechet_distance {n : ℕ} (mu_x mu_y : Fin n → ℝ)
    (sigma_x sigma_y : Matrix (Fin n) (Fin n) ℝ) : Option ℝ :=
  none

/-- Claim C6 fails on the code as written: on the notebook's own
unit-test input (identical means `(0, 2)` and identical identity
covariances) `frechet_distance` returns `None`, not 0, so the test cell's
assertion `frechet_distance(...).item() == 0` cannot succeed. -/
theorem frechet_distance_stub_not_zero :
    frechet_distance ![(0 : ℝ), 2] ![(0 : ℝ), 2]
      (Matrix.of ![![(1 : ℝ), 0], ![0, 1]]) (Matrix.of ![![(1 : ℝ), 0], ![0, 1]]) ≠
      some 0 := by
  unfold frechet_distance
  simp

/-- The error raised by `torch.load` on a missing checkpoint file. -/
inductive LoadError where
  | fileNotFound

/-- `torch.load(path)`: read the checkpoint from the file system `fs`
(a partial map from paths to serialized state dicts of type `σ`);
a missing file raises `FileNotFoundError`. -/
def torch_load {σ : Type} (fs : String → Option σ) (path : String) :
    Except LoadError σ :=
  match fs path with
  | none => Except.error LoadError.fileNotFound
  | some sd => Except.ok sd

/-- The weights-loading cell
`nn_model.load_state_dict(torch.load(path))`: there is no surrounding
`try`, so an exception from `torch.load` propagates out of the cell and
`load_state_dict` never runs. -/
def load_cell {M σ : Type} (load_state_dict : M → σ → M)
    (fs : String → Option σ) (path : String) (nn_model : M) :
    Except LoadError M :=
  match torch_load fs path with
  | Except.error e => Except.error e
  | Except.ok sd => Except.ok (load_state_dict nn_model sd)

/-- The binding of the model after the cell runs: an uncaught exception
leaves the previous model in place. -/
def model_after {M : Type} (result : Except LoadError M) (nn_model : M) : M :=
  match result with
  | Except.error _ => nn_model
  | Except.ok m => m

/-- Claim C8: when the checkpoint file named in the loading call does not
exist, the load raises a file-not-found error that propagates uncaught
out of the cell, and the model's parameters are unchanged. -/
theorem load_cell_missing_file {M σ : Type} (lsd : M → σ → M)
    (fs : String → Option σ) (path : String) (m : M) (h : fs path = none) :
    load_cell lsd fs path m = Except.error LoadError.fileNotFound ∧
    model_after (load_cell lsd fs path m) m = m := by
  unfold load_cell torch_load model_after
  rw [h]
  exact ⟨rfl, rfl⟩

/-- Witness for C8 on an empty file system and the notebook's path. -/
theorem load_cell_missing_file_witness :
    load_cell (fun (_ : ℝ) (s : ℝ) => s) (fun _ => none) "./weights//model_0.pth" 42 =
      Except.error LoadError.fileNotFound ∧
    model_after
      (load_cell (fun (_ : ℝ) (s : ℝ) => s) (fun _ => none) "./weights//model_0.pth" 42)
      42 = 42 :=
  load_cell_missing_file (fun _ s => s) (fun _ => none) "./weights//model_0.pth" 42 rfl

namespace NeRF

/-- The `dists` array of `render_rays`:
`torch.cat([z_vals[1:] - z_vals[:-1], 1e10])` — consecutive depth
differences, with the constant `1e10` appended for the last sample. -/
def dists (N : ℕ) (z_vals : ℕ → ℝ) (i : ℕ) : ℝ :=
  if i + 1 < N then z_vals (i + 1) - z_vals i else 1e10

/-- `alpha = 1 - torch.exp(-sigma_a * dists)`. -/
def alpha (N : ℕ) (z_vals sigma_a : ℕ → ℝ) (i : ℕ) : ℝ :=
  1 - Real.exp (-(sigma_a i * dists N z_vals i))

/-- `torch.cumprod(f, dim=-1)[i] = f[0] * ... * f[i]`. -/
def cumprod (f : ℕ → ℝ) (i : ℕ) : ℝ :=
  ∏ j ∈ Finset.range (i + 1), f j

/-- `torch.roll(g, 1, dims=-1)` on an array of length `N`: index `i`
reads the entry `(i - 1) mod N`, wrapping around at index 0. -/
def roll1 (N : ℕ) (g : ℕ → ℝ) (i : ℕ) : ℝ :=
  g ((i + (N - 1)) % N)

/-- The `weights` of `render_rays`:
`weights = torch.roll(torch.cumprod(1 - alpha + 1e-10, dim=-1), 1, dims=-1)`,
then `weights[..., 0] = 1`, then `weights = alpha * weights`. -/
def weights (N : ℕ) (z_vals sigma_a : ℕ → ℝ) (i : ℕ) : ℝ :=
  alpha N z_vals sigma_a i *
    (if i = 0 then 1
     else roll1 N (cumprod fun j => 1 - alpha N z_vals sigma_a j + 1e-10) i)

/-- `rgb_map = (weights * rgb).sum(dim=-2)`, one colour channel of the
composited pixel. -/
def rgb_map (N : ℕ) (z_vals sigma_a rgb : ℕ → ℝ) : ℝ :=
  ∑ i ∈ Finset.range N, weights N z_vals sigma_a i * rgb i

/-- The transmittance of the alpha-compositing recurrence as the spec
states it: the product over `j < i` of `1 - alpha_j + 1e-10`, the empty
product at `i = 0` being 1. -/
def transmittance (N : ℕ) (z_vals sigma_a : ℕ → ℝ) (i : ℕ) : ℝ :=
  ∏ j ∈ Finset.range i, (1 - alpha N z_vals sigma_a j + 1e-10)

/-- The rolled cumulative product with its index-0 override equals the
transmittance at every in-range index. -/
theorem roll_cumprod_eq_transmittance (N : ℕ) (z_vals sigma_a : ℕ → ℝ)
    (i : ℕ) (hi : i < N) :
    (if i = 0 then (1 : ℝ)
      else roll1 N (cumprod fun j => 1 - alpha N z_vals sigma_a j + 1e-10) i) =
      transmittance N z_vals sigma_a i := by
  cases i with
  | zero => simp [transmittance]
  | succ k =>
    rw [if_neg (Nat.succ_ne_zero k)]
    have h1 : (k + 1 + (N - 1)) % N = k := by
      have hN : 1 ≤ N := by omega
      have h2 : k + 1 + (N - 1) = N + k := by omega
      rw [h2, Nat.add_mod_left, Nat.mod_eq_of_lt (by omega)]
    unfold roll1 cumprod transmittance
    rw [h1]

/-- Claim C4: `render_rays` composites the pixel colour as the
transmittance-weighted alpha-compositing sum: every weight is
`T_i * (1 - exp(-sigma_i * delta_i))` with `T_i` the product over `j < i`
of `1 - alpha_j + 1e-10`, and the colour map is the corresponding
weighted sum of the per-sample colours. -/
theorem render_rays_compositing (N : ℕ) (z_vals sigma_a rgb : ℕ → ℝ) :
    (∀ i, i < N → weights N z_vals sigma_a i =
      transmittance N z_vals sigma_a i *
        (1 - Real.exp (-(sigma_a i * dists N z_vals i)))) ∧
    rgb_map N z_vals sigma_a rgb =
      ∑ i ∈ Finset.range N, transmittance N z_vals sigma_a i *
        (1 - Real.exp (-(sigma_a i * dists N z_vals i))) * rgb i := by
  have hw : ∀ i, i < N → weights N z_vals sigma_a i =
      transmittance N z_vals sigma_a i *
        (1 - Real.exp (-(sigma_a i * dists N z_vals i))) := by
    intro i hi
    unfold weights
    rw [roll_cumprod_eq_transmittance N z_vals sigma_a i hi, mul_comm]
    rfl
  refine ⟨hw, ?_⟩
  unfold rgb_map
  refine Finset.sum_congr rfl fun i hi => ?_
  rw [hw i (Finset.mem_range.mp hi)]

/-- Witness for C4 with one sample and a vanishing density. -/
theorem render_rays_compositing_witness :
    weights 1 (fun _ => 0) (fun _ => 0) 0 =
      transmittance 1 (fun _ => 0) (fun _ => 0) 0 *
        (1 - Real.exp (-(0 * dists 1 (fun _ => 0) 0))) :=
  (render_rays_compositing 1 (fun _ => 0) (fun _ => 0) (fun _ => 0)).1 0
    (by norm_num)

/-- The jittered depth samples of `render_rays` with `rand=True`:
`z_vals = torch.rand(...) * (far - near) / N_samples + torch.linspace(near, far, N_samples)`,
with `u i` the uniform draw in `[0, 1)` for sample `i`. -/
def z_vals_rand (near far : ℝ) (N : ℕ) (u : ℕ → ℝ) (i : ℕ) : ℝ :=
  u i * (far - near) / N + linspace near far N i

/-- Claim C10: with `rand=True`, `near < far` and `N_samples >= 2`, the
jitter `u i * (far - near) / N` stays below the linspace spacing
`(far - near) / (N - 1)`, so the jittered depths are strictly increasing
and every entry of `dists` is positive. -/
theorem z_vals_rand_strict_mono (near far : ℝ) (N : ℕ) (u : ℕ → ℝ)
    (hnf : near < far) (hN : 2 ≤ N) (hu : ∀ i, 0 ≤ u i ∧ u i < 1) :
    (∀ i, i + 1 < N →
      z_vals_rand near far N u i < z_vals_rand near far N u (i + 1)) ∧
    (∀ i, i < N → 0 < dists N (z_vals_rand near far N u) i) := by
  have hd : (0 : ℝ) < far - near := by linarith
  have hN2 : (2 : ℝ) ≤ (N : ℝ) := by exact_mod_cast hN
  have hNpos : (0 : ℝ) < (N : ℝ) := by linarith
  have hNm1 : (0 : ℝ) < (N : ℝ) - 1 := by linarith
  have hn1 : ((N - 1 : ℕ) : ℝ) = (N : ℝ) - 1 := by
    rw [Nat.cast_sub (by omega)]
    simp
  have hmono : ∀ i, i + 1 < N →
      z_vals_rand near far N u i < z_vals_rand near far N u (i + 1) := by
    intro i hi
    have hkey : z_vals_rand near far N u (i + 1) - z_vals_rand near far N u i =
        (u (i + 1) - u i) * (far - near) / N + (far - near) / ((N : ℝ) - 1) := by
      unfold z_vals_rand linspace
      rw [hn1]
      push_cast
      field_simp
      ring
    have hjit : -((far - near) / N) < (u (i + 1) - u i) * (far - near) / N := by
      have hlow : (-1 : ℝ) < u (i + 1) - u i := by
        have h1 := (hu i).2
        have h2 := (hu (i + 1)).1
        linarith
      have hpos : (0 : ℝ) < (far - near) / N := by positivity
      have := mul_lt_mul_of_pos_right hlow hpos
      calc -((far - near) / N) = -1 * ((far - near) / N) := by ring
        _ < (u (i + 1) - u i) * ((far - near) / N) := this
        _ = (u (i + 1) - u i) * (far - near) / N := by ring
    have hgap : (far - near) / N < (far - near) / ((N : ℝ) - 1) :=
      div_lt_div_of_pos_left hd hNm1 (by linarith)
    have : 0 < z_vals_rand near far N u (i + 1) - z_vals_rand near far N u i := by
      rw [hkey]
      linarith
    linarith
  refine ⟨hmono, ?_⟩
  intro i hi
  unfold dists
  by_cases h : i + 1 < N
  · rw [if_pos h]
    have := hmono i h
    linarith
  · rw [if_neg h]
    norm_num

/-- Witness for C10 with two samples on the unit interval and zero
jitter draws. -/
theorem z_vals_rand_strict_mono_witness :
    0 < dists 2 (z_vals_rand 0 1 2 fun _ => 0) 0 :=
  (z_vals_rand_strict_mono 0 1 2 (fun _ => 0) (by norm_num) (by norm_num)
    (fun i => ⟨le_refl 0, by norm_num⟩)).2 0 (by norm_num)

end NeRF
